import Mathlib

/-!
# Verification of the rx-scoreboard core (`src/rx-scoreboard/app.js`)

A shallow embedding, in Lean 4, of the algorithmic core of the
rx-scoreboard single-page application: the time-context model,
the animated counter engine, the "nice number" axis mathematics,
the movers ranking, the upload/canonicalization pipeline and the
clear-data control flow.  JavaScript numbers are modelled as exact
rationals (`ℚ`), except where the source genuinely computes a square
root, where reals are used.  Machine-level floating point rounding is
out of scope of the statements proved here.
-/

namespace Rx

/-! ## Time-context model (`computeTimeContext`, app.js lines 764–781)

`Date.UTC(y, 0, 1)` is modelled on the proleptic Gregorian calendar:
milliseconds between the Unix epoch and 00:00:00 UTC on January 1 of
year `y`.  (The legacy two-digit-year remapping of the JS `Date.UTC`
host function is not modelled.) -/

/-- Number of Gregorian leap days in years `1, …, y-1` (proleptic).
`/` on `ℤ` is floor division for these positive divisors. -/
def leapDaysBefore (y : ℤ) : ℤ :=
  (y - 1) / 4 - (y - 1) / 100 + (y - 1) / 400

/-- Days between 1970-01-01 and `y`-01-01 (negative for years before 1970). -/
def daysSinceEpoch (y : ℤ) : ℤ :=
  365 * (y - 1970) + (leapDaysBefore y - leapDaysBefore 1970)

/-- `Date.UTC(y, 0, 1, 0, 0, 0)` in milliseconds since the epoch. -/
def utcMillis (y : ℤ) : ℤ := 86400000 * daysSinceEpoch y

/-- Return value of `computeTimeContext`. -/
structure TimeContext where
  yearSeconds : ℚ
  elapsedSeconds : ℚ
  isCurrent : Bool
  deriving Repr, DecidableEq

/-- Embedding of `computeTimeContext(year)` (app.js 764–781).
`now` is `Date.now()` in milliseconds; `currentYear` is the year the
wall clock reports via `new Date().getFullYear()`. -/
def computeTimeContext (year : ℤ) (now : ℚ) (currentYear : ℤ) : TimeContext :=
  let start : ℚ := (utcMillis year : ℤ)
  let stop : ℚ := (utcMillis (year + 1) : ℤ)
  let yearSeconds : ℚ := (stop - start) / 1000
  let elapsedSeconds : ℚ :=
    if year = currentYear then max 0 (min yearSeconds ((now - start) / 1000))
    else if currentYear < year then 0
    else yearSeconds
  { yearSeconds := yearSeconds
    elapsedSeconds := elapsedSeconds
    isCurrent := decide (year = currentYear) && decide (elapsedSeconds < yearSeconds) }

lemma daysInYear_bounds (y : ℤ) :
    365 ≤ daysSinceEpoch (y + 1) - daysSinceEpoch y ∧
      daysSinceEpoch (y + 1) - daysSinceEpoch y ≤ 366 := by
  unfold daysSinceEpoch leapDaysBefore
  omega

lemma yearSeconds_eq (year : ℤ) (now : ℚ) (currentYear : ℤ) :
    (computeTimeContext year now currentYear).yearSeconds =
      86400 * ((daysSinceEpoch (year + 1) - daysSinceEpoch year : ℤ) : ℚ) := by
  show ((utcMillis (year + 1) : ℤ) - (utcMillis year : ℤ) : ℚ) / 1000 = _
  unfold utcMillis
  push_cast
  ring

lemma yearSeconds_pos (year : ℤ) (now : ℚ) (currentYear : ℤ) :
    0 < (computeTimeContext year now currentYear).yearSeconds := by
  rw [yearSeconds_eq]
  have h := (daysInYear_bounds year).1
  have : (365 : ℚ) ≤ ((daysSinceEpoch (year + 1) - daysSinceEpoch year : ℤ) : ℚ) := by
    exact_mod_cast h
  linarith

lemma elapsed_bounds (year : ℤ) (now : ℚ) (currentYear : ℤ) :
    0 ≤ (computeTimeContext year now currentYear).elapsedSeconds ∧
      (computeTimeContext year now currentYear).elapsedSeconds ≤
        (computeTimeContext year now currentYear).yearSeconds := by
  have hpos := yearSeconds_pos year now currentYear
  show 0 ≤ (computeTimeContext year now currentYear).elapsedSeconds ∧ _
  unfold computeTimeContext at *
  dsimp only at hpos ⊢
  split
  · constructor
    · exact le_max_left 0 _
    · exact max_le (le_of_lt hpos) (min_le_left _ _)
  · split
    · exact ⟨le_refl 0, le_of_lt hpos⟩
    · exact ⟨le_of_lt hpos, le_refl _⟩

/-- C2: for every year `y` and wall-clock instant (`now`, with reported
calendar year `currentYear`): a strictly past year yields
`elapsedSeconds = totalSeconds` and `isLive = false`; a strictly future
year yields `elapsedSeconds = 0` and `isLive = false`; the current year
yields `elapsedSeconds = clamp(secondsSinceYearStart, 0, totalSeconds)`
and `isLive ↔ elapsedSeconds < totalSeconds`.  In all cases
`elapsedSeconds ∈ [0, totalSeconds]`. -/
theorem computeTimeContext_cases (year : ℤ) (now : ℚ) (currentYear : ℤ) :
    (year < currentYear →
      (computeTimeContext year now currentYear).elapsedSeconds =
          (computeTimeContext year now currentYear).yearSeconds ∧
        (computeTimeContext year now currentYear).isCurrent = false) ∧
    (currentYear < year →
      (computeTimeContext year now currentYear).elapsedSeconds = 0 ∧
        (computeTimeContext year now currentYear).isCurrent = false) ∧
    (year = currentYear →
      (computeTimeContext year now currentYear).elapsedSeconds =
          max 0 (min (computeTimeContext year now currentYear).yearSeconds
            ((now - ((utcMillis year : ℤ) : ℚ)) / 1000)) ∧
        ((computeTimeContext year now currentYear).isCurrent = true ↔
          (computeTimeContext year now currentYear).elapsedSeconds <
            (computeTimeContext year now currentYear).yearSeconds)) ∧
    (0 ≤ (computeTimeContext year now currentYear).elapsedSeconds ∧
      (computeTimeContext year now currentYear).elapsedSeconds ≤
        (computeTimeContext year now currentYear).yearSeconds) := by
  refine ⟨?_, ?_, ?_, elapsed_bounds year now currentYear⟩
  · intro h
    have hne : ¬ year = currentYear := by omega
    have hnlt : ¬ currentYear < year := by omega
    simp [computeTimeContext, if_neg hne, if_neg hnlt, hne]
  · intro h
    have hne : ¬ year = currentYear := by omega
    simp [computeTimeContext, if_neg hne, if_pos h, hne]
  · intro h
    simp [computeTimeContext, h]

/-- Witness for `computeTimeContext_cases` at year 2020, current year
2026: the past-year branch applies. -/
theorem computeTimeContext_cases_witness :
    (computeTimeContext 2020 1760000000000 2026).elapsedSeconds =
        (computeTimeContext 2020 1760000000000 2026).yearSeconds ∧
      (computeTimeContext 2020 1760000000000 2026).isCurrent = false :=
  (computeTimeContext_cases 2020 1760000000000 2026).1 (by decide)

/-- C8: `totalSeconds` is derived from UTC calendar-year boundaries:
for every year `elapsedSeconds ∈ [0, totalSeconds]`, and the leap year
2024 has exactly 86 400 more seconds than the non-leap year 2023. -/
theorem yearSeconds_leap_difference :
    (∀ (year : ℤ) (now : ℚ) (currentYear : ℤ),
      0 ≤ (computeTimeContext year now currentYear).elapsedSeconds ∧
        (computeTimeContext year now currentYear).elapsedSeconds ≤
          (computeTimeContext year now currentYear).yearSeconds) ∧
    (computeTimeContext 2024 0 0).yearSeconds =
      (computeTimeContext 2023 0 0).yearSeconds + 86400 := by
  refine ⟨fun year now currentYear => elapsed_bounds year now currentYear, ?_⟩
  rw [yearSeconds_eq, yearSeconds_eq]
  norm_num [daysSinceEpoch, leapDaysBefore]

/-! ## Nice-number axis mathematics (`niceCeil`, `niceStep`, tick loops)

`Math.floor(Math.log10 v)` is `Int.log 10 v` on exact rationals; the
JS literal `0.2` is the exact `1/5` here. -/

/-- Embedding of `niceCeil` (app.js 1153–1160).  The `Number.isFinite`
guard is vacuous on `ℚ`; non-positive input yields the degenerate 1. -/
def niceCeil (value : ℚ) : ℚ :=
  if value ≤ 0 then 1
  else (⌈value / (10 : ℚ) ^ Int.log 10 value⌉ : ℤ) * (10 : ℚ) ^ Int.log 10 value

/-- Embedding of `niceStep` (app.js 1162–1179): nice-fraction table
keyed by `value / 10 ^ ⌊log10 value⌋`. -/
def niceStep (value : ℚ) : ℚ :=
  if value ≤ 0 then 1
  else
    (if value / (10 : ℚ) ^ Int.log 10 value ≤ 1 then 1/5
     else if value / (10 : ℚ) ^ Int.log 10 value ≤ 2 then 1/2
     else if value / (10 : ℚ) ^ Int.log 10 value ≤ 5 then 1
     else 2) * (10 : ℚ) ^ Int.log 10 value

/-- The axis tick loops of `renderScatter` (app.js 978–999 and
1024–1045): starting from `value`, emit `value` and advance by `step`
while `value ≤ maxV`, for at most `fuel` iterations. -/
def ticksFrom (maxV step value : ℚ) : ℕ → List ℚ
  | 0 => []
  | n + 1 => if value ≤ maxV then value :: ticksFrom maxV step (value + step) n else []

/-- Regular ticks of one axis: from 0 with the given step, capped at 8. -/
def regularTicks (maxV step : ℚ) : List ℚ := ticksFrom maxV step 0 8

/-- `lastXValue` / `lastYValue` after the loop: last emitted regular
tick, 0 when none was emitted. -/
def lastTick (maxV step : ℚ) : ℚ := (regularTicks maxV step).getLastD 0

/-- Regular ticks plus the supplementary tick at the ceiling emitted
when the last regular tick is more than a quarter step away from it
(app.js 1000–1019 and 1046–1065). -/
def axisTicks (maxV step : ℚ) : List ℚ :=
  if |lastTick maxV step - maxV| > step * (1/4) then
    regularTicks maxV step ++ [maxV]
  else regularTicks maxV step

/-- The x axis rounds the nice step up to a whole number of claims:
`Math.max(1, Math.ceil(niceStep(maxClaims)))` (app.js 975). -/
def xAxisStep (maxClaims : ℚ) : ℚ := max 1 ((⌈niceStep maxClaims⌉ : ℤ) : ℚ)

/-- Ticks rendered on the claims (x) axis. -/
def xAxisTicks (maxClaims : ℚ) : List ℚ := axisTicks maxClaims (xAxisStep maxClaims)

/-- Ticks rendered on the unit-cost (y) axis (app.js 1021). -/
def yAxisTicks (maxUnitCost : ℚ) : List ℚ := axisTicks maxUnitCost (niceStep maxUnitCost)

lemma log10_eq_of {r : ℚ} {e : ℤ} (hr : 0 < r)
    (h1 : (10 : ℚ) ^ e ≤ r) (h2 : r < (10 : ℚ) ^ (e + 1)) :
    Int.log 10 r = e := by
  have hb : (1 : ℕ) < 10 := by norm_num
  have h1' : ((10 : ℕ) : ℚ) ^ e ≤ r := by exact_mod_cast h1
  have h2' : r < ((10 : ℕ) : ℚ) ^ (e + 1) := by exact_mod_cast h2
  have h3 : e ≤ Int.log 10 r := (Int.zpow_le_iff_le_log hb hr).mp h1'
  have h4 : Int.log 10 r < e + 1 := (Int.lt_zpow_iff_log_lt hb hr).mp h2'
  omega

/-- C3: on positive input, `niceCeil` scales by the power of ten at or
below the input and rounds the ratio up to the next integer; the
concrete values of the spec hold, with `niceCeil 0 = 1` the degenerate
floor for non-positive input. -/
theorem niceCeil_spec :
    (∀ v : ℚ, 0 < v →
      (10 : ℚ) ^ Int.log 10 v ≤ v ∧
        niceCeil v = (⌈v / (10 : ℚ) ^ Int.log 10 v⌉ : ℤ) * (10 : ℚ) ^ Int.log 10 v) ∧
    niceCeil 834 = 900 ∧ niceCeil 45 = 50 ∧ niceCeil 0 = 1 := by
  have l834 : Int.log 10 (834 : ℚ) = 2 :=
    log10_eq_of (by norm_num) (by norm_num) (by norm_num)
  have l45 : Int.log 10 (45 : ℚ) = 1 :=
    log10_eq_of (by norm_num) (by norm_num) (by norm_num)
  refine ⟨fun v hv => ⟨Int.zpow_log_le_self (by norm_num) hv, ?_⟩, ?_, ?_, ?_⟩
  · unfold niceCeil
    rw [if_neg (not_le.mpr hv)]
  · unfold niceCeil
    rw [if_neg (by norm_num), l834]
    rw [show ((10 : ℚ) ^ (2 : ℤ)) = 100 by norm_num,
      show ⌈(834 : ℚ) / 100⌉ = 9 by rw [Int.ceil_eq_iff]; norm_num]
    norm_num
  · unfold niceCeil
    rw [if_neg (by norm_num), l45]
    rw [show ((10 : ℚ) ^ (1 : ℤ)) = 10 by norm_num,
      show ⌈(45 : ℚ) / 10⌉ = 5 by rw [Int.ceil_eq_iff]; norm_num]
    norm_num
  · unfold niceCeil
    rw [if_pos le_rfl]

/-- Witness for `niceCeil_spec` at the concrete input 45. -/
theorem niceCeil_spec_witness :
    (0 : ℚ) < 45 ∧
      ((10 : ℚ) ^ Int.log 10 (45 : ℚ) ≤ 45 ∧
        niceCeil 45 =
          (⌈(45 : ℚ) / (10 : ℚ) ^ Int.log 10 (45 : ℚ)⌉ : ℤ) *
            (10 : ℚ) ^ Int.log 10 (45 : ℚ)) :=
  ⟨by norm_num, niceCeil_spec.1 45 (by norm_num)⟩

/-- C10: for every positive value `v`, `niceCeil v ≥ v` — the computed
axis ceiling is never below the data maximum. -/
theorem niceCeil_ge (v : ℚ) (hv : 0 < v) : v ≤ niceCeil v := by
  unfold niceCeil
  rw [if_neg (not_le.mpr hv)]
  have hf : (0 : ℚ) < (10 : ℚ) ^ Int.log 10 v := zpow_pos (by norm_num) _
  calc v = v / (10 : ℚ) ^ Int.log 10 v * (10 : ℚ) ^ Int.log 10 v :=
        (div_mul_cancel₀ v hf.ne').symm
    _ ≤ _ := mul_le_mul_of_nonneg_right (Int.le_ceil _) hf.le

/-- Witness for `niceCeil_ge` at the concrete input 834. -/
theorem niceCeil_ge_witness : (0 : ℚ) < 834 ∧ (834 : ℚ) ≤ niceCeil 834 :=
  ⟨by norm_num, niceCeil_ge 834 (by norm_num)⟩

lemma ticksFrom_length (m s : ℚ) : ∀ (n : ℕ) (v : ℚ), (ticksFrom m s v n).length ≤ n := by
  intro n
  induction n with
  | zero => intro v; simp [ticksFrom]
  | succ k ih =>
    intro v
    unfold ticksFrom
    split
    · simpa using ih (v + s)
    · simp

lemma ticksFrom_get? (m s : ℚ) :
    ∀ (n : ℕ) (v : ℚ) (i : ℕ), i < (ticksFrom m s v n).length →
      (ticksFrom m s v n).get? i = some (v + i * s) := by
  intro n
  induction n with
  | zero => intro v i hi; simp [ticksFrom] at hi
  | succ k ih =>
    intro v i hi
    unfold ticksFrom at hi ⊢
    by_cases hv : v ≤ m
    · rw [if_pos hv] at hi ⊢
      match i with
      | 0 => simp
      | j + 1 =>
        have hj : j < (ticksFrom m s (v + s) k).length := by
          simpa using hi
        have h2 := ih (v + s) j hj
        rw [List.get?_cons_succ, h2]
        congr 1
        push_cast
        ring
    · rw [if_neg hv] at hi
      simp at hi

/-- C4 fails as stated: the claims (x) axis does not tick with the raw
nice step.  At `maxClaims = 1` the nice step is `1/5`, but the rendered
x axis uses `max(1, ceil(1/5)) = 1` and emits `[0, 1]`, not the
`[0, 1/5, …, 1]` the claim's step would produce. -/
theorem xAxis_step_counterexample :
    niceStep 1 = 1/5 ∧ xAxisStep 1 = 1 ∧ xAxisTicks 1 = [0, 1] ∧
      axisTicks 1 (niceStep 1) = [0, 1/5, 2/5, 3/5, 4/5, 1] ∧
      xAxisTicks 1 ≠ axisTicks 1 (niceStep 1) := by
  have hs : niceStep 1 = 1/5 := by
    unfold niceStep
    rw [if_neg (by norm_num), Int.log_one_right]
    norm_num
  have hc : ⌈(1 : ℚ)/5⌉ = 1 := by
    rw [Int.ceil_eq_iff]
    norm_num
  have hx : xAxisStep 1 = 1 := by
    unfold xAxisStep
    rw [hs, hc]
    norm_num
  have ht : xAxisTicks 1 = [0, 1] := by
    unfold xAxisTicks
    rw [hx]
    norm_num [axisTicks, lastTick, regularTicks, ticksFrom]
  have ht' : axisTicks 1 (niceStep 1) = [0, 1/5, 2/5, 3/5, 4/5, 1] := by
    rw [hs]
    norm_num [axisTicks, lastTick, regularTicks, ticksFrom]
  refine ⟨hs, hx, ht, ht', ?_⟩
  rw [ht, ht']
  simp

/-- C4 (amended): `niceStep` follows the nice-fraction table keyed by
the leading significant digit; each axis emits at most 8 regular ticks
starting at 0 and spaced by the axis step, plus a supplementary tick
exactly at the ceiling iff the last regular tick is more than a quarter
step from the ceiling; the y axis steps by `niceStep` itself while the
x axis steps by `max(1, ceil(niceStep maxClaims))`. -/
theorem axis_ticks_spec :
    (∀ v : ℚ, 0 < v →
      ((v / (10 : ℚ) ^ Int.log 10 v ≤ 1 →
          niceStep v = 1/5 * (10 : ℚ) ^ Int.log 10 v) ∧
        (1 < v / (10 : ℚ) ^ Int.log 10 v → v / (10 : ℚ) ^ Int.log 10 v ≤ 2 →
          niceStep v = 1/2 * (10 : ℚ) ^ Int.log 10 v) ∧
        (2 < v / (10 : ℚ) ^ Int.log 10 v → v / (10 : ℚ) ^ Int.log 10 v ≤ 5 →
          niceStep v = (10 : ℚ) ^ Int.log 10 v) ∧
        (5 < v / (10 : ℚ) ^ Int.log 10 v →
          niceStep v = 2 * (10 : ℚ) ^ Int.log 10 v))) ∧
    (∀ m s : ℚ, (regularTicks m s).length ≤ 8) ∧
    (∀ m s : ℚ, 0 ≤ m → (regularTicks m s).head? = some 0) ∧
    (∀ (m s : ℚ) (i : ℕ), i < (regularTicks m s).length →
      (regularTicks m s).get? i = some (i * s)) ∧
    (∀ m s : ℚ,
      (|lastTick m s - m| > s * (1/4) → axisTicks m s = regularTicks m s ++ [m]) ∧
        (¬ |lastTick m s - m| > s * (1/4) → axisTicks m s = regularTicks m s)) ∧
    (∀ mc : ℚ, xAxisTicks mc = axisTicks mc (max 1 ((⌈niceStep mc⌉ : ℤ) : ℚ))) ∧
    (∀ mu : ℚ, yAxisTicks mu = axisTicks mu (niceStep mu)) := by
  refine ⟨?_, fun m s => ticksFrom_length m s 8 0, ?_, ?_, ?_, fun mc => rfl, fun mu => rfl⟩
  · intro v hv
    refine ⟨fun h1 => ?_, fun h1 h2 => ?_, fun h1 h2 => ?_, fun h1 => ?_⟩
    · unfold niceStep
      rw [if_neg (not_le.mpr hv), if_pos h1]
    · unfold niceStep
      rw [if_neg (not_le.mpr hv), if_neg (not_le.mpr h1), if_pos h2]
    · unfold niceStep
      rw [if_neg (not_le.mpr hv), if_neg (by linarith), if_neg (not_le.mpr h1), if_pos h2]
      ring
    · unfold niceStep
      rw [if_neg (not_le.mpr hv), if_neg (by linarith), if_neg (by linarith),
        if_neg (not_le.mpr h1)]
  · intro m s hm
    unfold regularTicks ticksFrom
    rw [if_pos hm]
    rfl
  · intro m s i hi
    have := ticksFrom_get? m s 8 0 i hi
    simpa using this
  · intro m s
    constructor
    · intro h
      unfold axisTicks
      rw [if_pos h]
    · intro h
      unfold axisTicks
      rw [if_neg h]

/-- Witness for `axis_ticks_spec`: the table's third row at the
concrete input 45 (leading digit 4). -/
theorem axis_ticks_spec_witness : niceStep 45 = (10 : ℚ) ^ Int.log 10 (45 : ℚ) := by
  have l45 : Int.log 10 (45 : ℚ) = 1 :=
    log10_eq_of (by norm_num) (by norm_num) (by norm_num)
  exact (axis_ticks_spec.1 45 (by norm_num)).2.2.1
    (by rw [l45]; norm_num) (by rw [l45]; norm_num)

/-! ## Animated value engine (`AnimatedNumber`, app.js 210–264)

The rendering target, formatter and `lastText` cache play no role in
the numeric state and are omitted.  `limit = none` models the initial
`Infinity`; an input of `none` models a non-finite argument (the
`Number.isFinite` guards). -/

/-- Numeric state of an `AnimatedNumber` counter. -/
structure Counter where
  value : ℚ
  rate : ℚ
  limit : Option ℚ
  deriving Repr, DecidableEq

/-- Constructor state (app.js 211–218): `value = 0`, `rate = 0`,
`limit = Infinity`. -/
def Counter.init : Counter := { value := 0, rate := 0, limit := none }

/-- `Math.min(x, limit)` where `limit = none` is `Infinity`. -/
def minLimit (x : ℚ) : Option ℚ → ℚ
  | none => x
  | some m => min x m

/-- `AnimatedNumber.update({value, rate, limit})` (app.js 220–229):
non-finite `value` becomes 0, non-finite `rate` becomes 0, non-finite
`limit` becomes `Infinity`; the displayed value jumps to
`min(value, limit)`. -/
def Counter.update (c : Counter) (value rate limit : Option ℚ) : Counter :=
  { value := minLimit (value.getD 0) limit
    rate := rate.getD 0
    limit := limit }

/-- `AnimatedNumber.shouldAnimate()` (app.js 235–242); `reduced` and
`hidden` stand for `prefersReducedMotion.matches` and
`document.hidden`. -/
def Counter.shouldAnimate (c : Counter) (reduced hidden : Bool) : Bool :=
  !reduced && !hidden && decide (c.rate ≠ 0) &&
    (match c.limit with
     | none => true
     | some m => decide (c.value < m))

/-- `AnimatedNumber.tick(delta)` (app.js 244–255): when animating,
advance to `min(limit, value + rate * delta)` (the subsequent
`value >= limit` re-clamp in the source is subsumed by the `min`). -/
def Counter.tick (c : Counter) (reduced hidden : Bool) (delta : ℚ) : Counter :=
  if c.shouldAnimate reduced hidden then
    { c with value := minLimit (c.value + c.rate * delta) c.limit }
  else c

/-- One call against a counter: an `update` with the given arguments or
a shared-clock `tick` with the given environment flags and delta. -/
inductive CounterEvent where
  | update (value rate limit : Option ℚ)
  | tick (reduced hidden : Bool) (delta : ℚ)
  deriving Repr, DecidableEq

/-- Apply one event to a counter state. -/
def Counter.step (c : Counter) : CounterEvent → Counter
  | .update v r l => c.update v r l
  | .tick red hid d => c.tick red hid d

/-- State of a counter after a sequence of update/tick calls. -/
def Counter.run (evs : List CounterEvent) : Counter :=
  evs.foldl Counter.step Counter.init

/-- The event has finite arguments and non-negative numeric inputs. -/
def CounterEvent.finiteNonneg : CounterEvent → Prop
  | .update (some v) (some r) (some l) => 0 ≤ v ∧ 0 ≤ r ∧ 0 ≤ l
  | .update _ _ _ => False
  | .tick _ _ d => 0 ≤ d

/-- Auxiliary invariant carried through the event sequence. -/
def Counter.goodState (c : Counter) : Prop :=
  0 ≤ c.value ∧ 0 ≤ c.rate ∧ ∀ m : ℚ, c.limit = some m → c.value ≤ m

lemma goodState_init : Counter.init.goodState :=
  ⟨le_refl 0, le_refl 0, fun m h => by simp [Counter.init] at h⟩

lemma goodState_step {c : Counter} (hc : c.goodState) {e : CounterEvent}
    (he : e.finiteNonneg) : (c.step e).goodState := by
  match e with
  | .update (some v) (some r) (some l) =>
    obtain ⟨hv, hr, hl⟩ := he
    refine ⟨?_, hr, ?_⟩
    · simpa [Counter.step, Counter.update, minLimit] using ⟨hv, hl⟩
    · intro m hm
      simp only [Counter.step, Counter.update] at hm ⊢
      cases hm
      simp [minLimit]
  | .update none _ _ => exact absurd he (by simp [CounterEvent.finiteNonneg])
  | .update (some _) none _ => exact absurd he (by simp [CounterEvent.finiteNonneg])
  | .update (some _) (some _) none => exact absurd he (by simp [CounterEvent.finiteNonneg])
  | .tick red hid d =>
    obtain ⟨hval, hrate, hlim⟩ := hc
    simp only [Counter.step, Counter.tick]
    split
    · refine ⟨?_, hrate, ?_⟩
      · have hx : 0 ≤ c.value + c.rate * d := by
          have : 0 ≤ c.rate * d := mul_nonneg hrate he
          linarith
        match hl : c.limit with
        | none => simpa [minLimit] using hx
        | some m =>
          have hm : 0 ≤ m := le_trans hval (hlim m hl)
          simpa [minLimit] using ⟨hx, hm⟩
      · intro m hm
        simp only at hm
        rw [hm, minLimit]
        exact min_le_right _ _
    · exact ⟨hval, hrate, hlim⟩

lemma goodState_foldl :
    ∀ (evs : List CounterEvent) (c : Counter), c.goodState →
      (∀ e ∈ evs, e.finiteNonneg) → (evs.foldl Counter.step c).goodState := by
  intro evs
  induction evs with
  | nil => intro c hc _; simpa using hc
  | cons e rest ih =>
    intro c hc h
    simp only [List.foldl_cons]
    exact ih (c.step e) (goodState_step hc (h e (List.mem_cons_self e rest)))
      (fun e' he' => h e' (List.mem_cons_of_mem e he'))

/-- C1 fails as stated: a single finite `update` call with a negative
target value drives `displayedValue` below 0 — the code clamps only
from above (`Math.min(value, limit)`), never from below. -/
theorem counter_lower_bound_counterexample :
    (Counter.run [CounterEvent.update (some (-1)) (some 0) (some 10)]).value = -1 ∧
      ¬ (0 ≤ (Counter.run [CounterEvent.update (some (-1)) (some 0) (some 10)]).value) := by
  have h : (Counter.run [CounterEvent.update (some (-1)) (some 0) (some 10)]).value = -1 := by
    simp [Counter.run, Counter.step, Counter.update, Counter.init, minLimit]
    norm_num
  exact ⟨h, by rw [h]; norm_num⟩

/-- C1 (amended): for every sequence of update and tick calls whose
inputs are finite and non-negative, `0 ≤ displayedValue ≤ ceiling`
holds at every step; and — unconditionally — once `displayedValue` has
reached the ceiling, further ticks leave the counter unchanged. -/
theorem counter_invariant (evs : List CounterEvent)
    (h : ∀ e ∈ evs, e.finiteNonneg) :
    (0 ≤ (Counter.run evs).value ∧
      ∀ m : ℚ, (Counter.run evs).limit = some m → (Counter.run evs).value ≤ m) ∧
    (∀ (c : Counter) (reduced hidden : Bool) (delta m : ℚ),
      c.limit = some m → m ≤ c.value → c.tick reduced hidden delta = c) := by
  constructor
  · have hg := goodState_foldl evs Counter.init goodState_init h
    exact ⟨hg.1, hg.2.2⟩
  · intro c reduced hidden delta m hm hv
    unfold Counter.tick
    rw [if_neg]
    unfold Counter.shouldAnimate
    rw [hm]
    simp [not_lt.mpr hv]

/-- Witness for `counter_invariant`: an update to target 5 with rate 1
and ceiling 10, then a 2-second tick. -/
theorem counter_invariant_witness :
    0 ≤ (Counter.run [CounterEvent.update (some 5) (some 1) (some 10),
        CounterEvent.tick false false 2]).value ∧
      ∀ m : ℚ, (Counter.run [CounterEvent.update (some 5) (some 1) (some 10),
          CounterEvent.tick false false 2]).limit = some m →
        (Counter.run [CounterEvent.update (some 5) (some 1) (some 10),
            CounterEvent.tick false false 2]).value ≤ m :=
  (counter_invariant [CounterEvent.update (some 5) (some 1) (some 10),
      CounterEvent.tick false false 2]
    (by
      intro e he
      rcases List.mem_cons.mp he with rfl | he'
      · exact ⟨by norm_num, by norm_num, by norm_num⟩
      · rcases List.mem_singleton.mp he' with rfl
        show (0 : ℚ) ≤ 2
        norm_num)).1

/-! ## Movers ranking (`renderMovers`, app.js 853–875)

JS `Array.prototype.sort` is stable (ES2019), as is `mergeSort`. -/

/-- The fields of a Record the movers ranking reads: `spend_total_usd`
and the nullable `prev_spend_total_usd`.  The display-only fields play
no role in the ordering and are omitted. -/
structure MoverRow where
  spend : ℚ
  prev : Option ℚ
  deriving Repr, DecidableEq

/-- Year-over-year delta.  `renderMovers` computes it only on rows with
`prev != null`, where `getD 0` is the stored previous total. -/
def MoverRow.delta (r : MoverRow) : ℚ := r.spend - r.prev.getD 0

/-- `sort((a, b) => (b.delta || 0) - (a.delta || 0))`: stable
descending by delta. -/
def byDeltaDesc (a b : MoverRow) : Bool := decide (b.delta ≤ a.delta)

/-- `sort((a, b) => (b.spend_total_usd || 0) - (a.spend_total_usd || 0))`:
stable descending by spend. -/
def bySpendDesc (a b : MoverRow) : Bool := decide (b.spend ≤ a.spend)

/-- Rows with a known previous total, sorted descending by delta
(app.js 860–866). -/
def moversWithPrev (l : List MoverRow) : List MoverRow :=
  (l.filter (fun r => r.prev.isSome)).mergeSort byDeltaDesc

/-- Rows without a previous total, sorted descending by spend
(app.js 867–870). -/
def moversWithoutPrev (l : List MoverRow) : List MoverRow :=
  (l.filter (fun r => r.prev.isNone)).mergeSort bySpendDesc

/-- The movers list: both segments concatenated and truncated to 10
(app.js 871). -/
def movers (l : List MoverRow) : List MoverRow :=
  (moversWithPrev l ++ moversWithoutPrev l).take 10

/-- C5: the movers list is the rows having a previous total sorted
descending by delta, followed by the rows lacking one sorted descending
by spend, truncated to 10; on the spec's example the order is
`[spend 100, spend 40, spend 50]`. -/
theorem movers_spec :
    (∀ l : List MoverRow,
      (movers l).length ≤ 10 ∧
        movers l = (moversWithPrev l ++ moversWithoutPrev l).take 10 ∧
        (∀ r ∈ moversWithPrev l, r.prev.isSome) ∧
        (∀ r ∈ moversWithoutPrev l, r.prev = none) ∧
        (moversWithPrev l).Pairwise (fun a b => b.delta ≤ a.delta) ∧
        (moversWithoutPrev l).Pairwise (fun a b => b.spend ≤ a.spend)) ∧
    movers [⟨100, some 80⟩, ⟨50, none⟩, ⟨40, some 60⟩] =
      [⟨100, some 80⟩, ⟨40, some 60⟩, ⟨50, none⟩] := by
  constructor
  · intro l
    refine ⟨List.length_take_le 10 _, rfl, ?_, ?_, ?_, ?_⟩
    · intro r hr
      have := List.mem_filter.mp (List.mem_mergeSort.mp hr)
      simpa using this.2
    · intro r hr
      have := List.mem_filter.mp (List.mem_mergeSort.mp hr)
      simpa [Option.isNone_iff_eq_none] using this.2
    · have hs := List.sorted_mergeSort
        (fun a b c (hab : byDeltaDesc a b = true) (hbc : byDeltaDesc b c = true) => by
          simp only [byDeltaDesc, decide_eq_true_eq] at hab hbc ⊢
          linarith)
        (fun a b => by
          simp only [byDeltaDesc, Bool.or_eq_true, decide_eq_true_eq]
          exact le_total _ _)
        (l.filter (fun r => r.prev.isSome))
      exact hs.imp (fun h => by simpa [byDeltaDesc] using h)
    · have hs := List.sorted_mergeSort
        (fun a b c (hab : bySpendDesc a b = true) (hbc : bySpendDesc b c = true) => by
          simp only [bySpendDesc, decide_eq_true_eq] at hab hbc ⊢
          linarith)
        (fun a b => by
          simp only [bySpendDesc, Bool.or_eq_true, decide_eq_true_eq]
          exact le_total _ _)
        (l.filter (fun r => r.prev.isNone))
      exact hs.imp (fun h => by simpa [bySpendDesc] using h)
  · norm_num [movers, moversWithPrev, moversWithoutPrev, List.mergeSort, List.merge,
      byDeltaDesc, bySpendDesc, MoverRow.delta, List.filter]

/-- Witness for `movers_spec`: the membership clause at the example's
leading row. -/
theorem movers_spec_witness :
    (⟨100, some 80⟩ : MoverRow).prev.isSome :=
  (movers_spec.1 [⟨100, some 80⟩, ⟨50, none⟩, ⟨40, some 60⟩]).2.2.1 ⟨100, some 80⟩
    (by norm_num [moversWithPrev, List.mergeSort, List.merge, byDeltaDesc,
      MoverRow.delta, List.filter])

/-! ## Filename canonicalization (`normalizeDataFileName`, app.js 680–693)

Strings are processed as `List Char`.  `\s` and `toLowerCase` are
modelled with `Char.isWhitespace` / `Char.toLower` (ASCII; the Unicode
tail of the JS semantics is out of scope). -/

/-- `name.trim()`: strip leading and trailing whitespace. -/
def trimChars (l : List Char) : List Char :=
  ((l.dropWhile Char.isWhitespace).reverse.dropWhile Char.isWhitespace).reverse

/-- `replace(/\s+/g, '_')`: each maximal whitespace run becomes one
underscore; `prevSpace` records whether the previous char was one. -/
def collapseSpaces (prevSpace : Bool) : List Char → List Char
  | [] => []
  | c :: rest =>
    if c.isWhitespace then
      (if prevSpace then [] else ['_']) ++ collapseSpaces true rest
    else c :: collapseSpaces false rest

/-- One step of `replace(/\(\d+\)/g, '')` with fuel for structural
recursion (fuel `≥ length` never runs out): at `'('`, greedily take the
digit run; if it is non-empty and followed by `')'` the group is
dropped, else the char is kept. -/
def stripGroupsAux : ℕ → List Char → List Char
  | 0, l => l
  | _ + 1, [] => []
  | n + 1, c :: rest =>
    if c = '(' then
      if (rest.takeWhile Char.isDigit) ≠ [] then
        match rest.dropWhile Char.isDigit with
        | ')' :: tail => stripGroupsAux n tail
        | _ => c :: stripGroupsAux n rest
      else c :: stripGroupsAux n rest
    else c :: stripGroupsAux n rest

/-- `replace(/\(\d+\)/g, '')`: drop every parenthesised digit group. -/
def stripParenGroups (l : List Char) : List Char := stripGroupsAux l.length l

/-- Consume the literal `pat` from the front of `l`, returning the rest. -/
def dropLit : List Char → List Char → Option (List Char)
  | [], l => some l
  | _ :: _, [] => none
  | c :: cs, x :: xs => if x = c then dropLit cs xs else none

/-- Tail of `/medicare[_-]?drugs[_-]?(\d{4})\.json$/` after `drugs`:
optional separator (greedy, with backtracking), exactly four digits,
then `.json` at the end of the string; returns the captured digits. -/
def matchYearTail (l : List Char) : Option (List Char) :=
  let tryDigits : List Char → Option (List Char) := fun m =>
    if (m.take 4).length = 4 ∧ (m.take 4).all Char.isDigit then
      match dropLit ".json".data (m.drop 4) with
      | some [] => some (m.take 4)
      | _ => none
    else none
  match l with
  | c :: rest =>
    if c = '_' ∨ c = '-' then (tryDigits rest).orElse (fun _ => tryDigits l)
    else tryDigits l
  | [] => none

/-- Attempt `/medicare[_-]?drugs[_-]?(\d{4})\.json$/` at the head of `l`. -/
def matchMedicareAt (l : List Char) : Option (List Char) :=
  match dropLit "medicare".data l with
  | none => none
  | some rest =>
    let tryDrugs : List Char → Option (List Char) := fun m =>
      match dropLit "drugs".data m with
      | none => none
      | some rest2 => matchYearTail rest2
    match rest with
    | c :: rest' =>
      if c = '_' ∨ c = '-' then (tryDrugs rest').orElse (fun _ => tryDrugs rest)
      else tryDrugs rest
    | [] => none

/-- Leftmost match of the medicare-dataset pattern, as the JS regex
engine scans; returns the captured four digits. -/
def findMedicare : List Char → Option (List Char)
  | [] => none
  | c :: rest =>
    match matchMedicareAt (c :: rest) with
    | some ds => some ds
    | none => findMedicare rest

/-- Embedding of `normalizeDataFileName(name)` (app.js 680–693):
`!name` rejects the empty string; the name is trimmed, lowercased,
whitespace-collapsed and stripped of `(n)` groups, then matched against
the year-stamped dataset shape and the fixed context name. -/
def normalizeDataFileName (name : String) : Option String :=
  if name = "" then none
  else
    let sanitized :=
      stripParenGroups (collapseSpaces false ((trimChars name.data).map Char.toLower))
    match findMedicare sanitized with
    | some ds => some ("medicare_drugs_" ++ String.mk ds ++ ".json")
    | none =>
      if sanitized = "nhe_retail_rx.json".data then some "nhe_retail_rx.json"
      else none

/-! ## Upload ingestion (`handleDataUpload`, app.js 536–620) -/

/-- Provenance of a year's dataset (`state.dataSources` values). -/
inductive Source where
  | fetch
  | storage
  | session
  deriving Repr, DecidableEq

/-- Result of `JSON.parse` on an uploaded file's text: an array of
records, a non-array object, or anything else (primitives, `null`). -/
inductive Parsed where
  | array (rows : List MoverRow)
  | object
  | other
  deriving Repr, DecidableEq

/-- An uploaded file: its name and its parse result; `content = none`
models a read error or a `JSON.parse` exception. -/
structure UploadFile where
  name : String
  content : Option Parsed
  deriving Repr, DecidableEq

/-- Insertion-ordered map update, as JS `Map.prototype.set`. -/
def mapSet {α : Type} (m : List (ℕ × α)) (k : ℕ) (v : α) : List (ℕ × α) :=
  match m with
  | [] => [(k, v)]
  | (k', v') :: rest => if k' = k then (k, v) :: rest else (k', v') :: mapSet rest k v

/-- JS `Map.prototype.get`. -/
def mapGet {α : Type} (m : List (ℕ × α)) (k : ℕ) : Option α :=
  (m.find? (fun p => p.1 = k)).map Prod.snd

/-- The mutable application state the data pipeline touches:
`state.dataByYear`, `state.dataSources`, `state.nhe` (loaded or not)
and `state.nheSource`. -/
structure AppState where
  dataByYear : List (ℕ × List MoverRow)
  dataSources : List (ℕ × Source)
  nhe : Bool
  nheSource : Option Source
  deriving Repr, DecidableEq

/-- Per-file upload environment: `storage.isSupported()` and whether
`storage.save` succeeds. -/
structure UploadCtx where
  storageSupported : Bool
  persistOk : Bool
  deriving Repr, DecidableEq

/-- Outcome bucket a file's name is pushed to by `handleDataUpload`. -/
inductive FileOutcome where
  | savedPersistent
  | savedSession
  | skipped
  | failed
  deriving Repr, DecidableEq

/-- `Number.parseInt` on the four captured digits. -/
def digitsToNat (ds : List Char) : ℕ :=
  ds.foldl (fun acc c => 10 * acc + (c.toNat - '0'.toNat)) 0

/-- `canonicalName.match(/medicare_drugs_(\d{4})\.json$/)` at the head
of `l` (app.js 556): the strict shape, no separator flexibility. -/
def matchStrictAt (l : List Char) : Option (List Char) :=
  match dropLit "medicare_drugs_".data l with
  | none => none
  | some rest =>
    if (rest.take 4).length = 4 ∧ (rest.take 4).all Char.isDigit then
      match dropLit ".json".data (rest.drop 4) with
      | some [] => some (rest.take 4)
      | _ => none
    else none

/-- Leftmost strict match, as the JS regex engine scans. -/
def findStrictMedicare : List Char → Option (List Char)
  | [] => none
  | c :: rest =>
    match matchStrictAt (c :: rest) with
    | some ds => some ds
    | none => findStrictMedicare rest

/-- Year extracted from a canonical dataset filename (app.js 556–560). -/
def canonicalYear (canonical : String) : Option ℕ :=
  (findStrictMedicare canonical.data).map digitsToNat

/-- The body of `handleDataUpload`'s per-file loop (app.js 536–597):
returns the state after the file and the outcome bucket its name joins. -/
def processFile (ctx : UploadCtx) (st : AppState) (f : UploadFile) :
    AppState × FileOutcome :=
  match normalizeDataFileName f.name with
  | none => (st, FileOutcome.skipped)
  | some canonical =>
    match f.content with
    | none => (st, FileOutcome.failed)
    | some parsed =>
      if "medicare_drugs_".data.isPrefixOf canonical.data then
        match parsed with
        | Parsed.array rows =>
          match canonicalYear canonical with
          | none => (st, FileOutcome.failed)
          | some year =>
            let st1 : AppState :=
              { st with dataByYear := mapSet st.dataByYear year rows
                        dataSources := mapSet st.dataSources year Source.session }
            if ctx.storageSupported ∧ ctx.persistOk then
              ({ st1 with dataSources := mapSet st1.dataSources year Source.storage },
                FileOutcome.savedPersistent)
            else (st1, FileOutcome.savedSession)
        | _ => (st, FileOutcome.failed)
      else if canonical = "nhe_retail_rx.json" then
        match parsed with
        | Parsed.other => (st, FileOutcome.failed)
        | _ =>
          let st1 : AppState := { st with nhe := true, nheSource := some Source.session }
          if ctx.storageSupported ∧ ctx.persistOk then
            ({ st1 with nheSource := some Source.storage }, FileOutcome.savedPersistent)
          else (st1, FileOutcome.savedSession)
      else (st, FileOutcome.skipped)

/-- The whole upload batch: files processed left to right, each against
the state the previous one left (app.js 536). -/
def processBatch (ctx : UploadCtx) (st : AppState) :
    List UploadFile → AppState × List FileOutcome
  | [] => (st, [])
  | f :: fs =>
    let r := processFile ctx st f
    let rest := processBatch ctx r.1 fs
    (rest.1, r.2 :: rest.2)

lemma mapGet_mapSet {α : Type} (m : List (ℕ × α)) (k : ℕ) (v : α) :
    mapGet (mapSet m k v) k = some v := by
  induction m with
  | nil => simp [mapSet, mapGet]
  | cons p rest ih =>
    obtain ⟨k', v'⟩ := p
    by_cases hk : k' = k
    · subst hk
      simp [mapSet, mapGet]
    · simp only [mapSet, if_neg hk]
      simp only [mapGet, List.find?] at ih ⊢
      rw [show (decide ((k', v').1 = k)) = false by simpa using hk]
      exact ih

/-- C6: `Medicare_Drugs_2022(1).json` canonicalizes to
`medicare_drugs_2022.json`; unrecognized names canonicalize to `null`
and are skipped with no state change; for a recognized dataset name an
array payload lands in the registry under its year, while a non-array
payload is reported as failed, leaves the state (all loaded years)
untouched, and does not stop the rest of the batch. -/
theorem upload_policy_spec :
    normalizeDataFileName "Medicare_Drugs_2022(1).json" = some "medicare_drugs_2022.json" ∧
    normalizeDataFileName "random.txt" = none ∧
    normalizeDataFileName "medicare_drugs_22.json" = none ∧
    (∀ (ctx : UploadCtx) (st : AppState) (f : UploadFile),
      normalizeDataFileName f.name = none →
        processFile ctx st f = (st, FileOutcome.skipped)) ∧
    (∀ (ctx : UploadCtx) (st : AppState) (f : UploadFile) (canonical : String)
        (rows : List MoverRow) (year : ℕ),
      normalizeDataFileName f.name = some canonical →
      f.content = some (Parsed.array rows) →
      "medicare_drugs_".data.isPrefixOf canonical.data = true →
      canonicalYear canonical = some year →
        mapGet (processFile ctx st f).1.dataByYear year = some rows ∧
          ((processFile ctx st f).2 = FileOutcome.savedPersistent ∨
            (processFile ctx st f).2 = FileOutcome.savedSession)) ∧
    (∀ (ctx : UploadCtx) (st : AppState) (f : UploadFile) (canonical : String),
      normalizeDataFileName f.name = some canonical →
      "medicare_drugs_".data.isPrefixOf canonical.data = true →
      (∀ rows : List MoverRow, f.content ≠ some (Parsed.array rows)) →
      f.content ≠ none →
        processFile ctx st f = (st, FileOutcome.failed)) ∧
    (∀ (ctx : UploadCtx) (st : AppState) (f : UploadFile) (fs : List UploadFile),
      processFile ctx st f = (st, FileOutcome.failed) →
        processBatch ctx st (f :: fs) =
          ((processBatch ctx st fs).1, FileOutcome.failed :: (processBatch ctx st fs).2)) := by
  refine ⟨by decide, by decide, by decide, ?_, ?_, ?_, ?_⟩
  · intro ctx st f h
    simp [processFile, h]
  · intro ctx st f canonical rows year hname hcontent hpre hyear
    simp only [processFile, hname, hcontent, hpre, if_true, hyear]
    by_cases hp : ctx.storageSupported ∧ ctx.persistOk
    · rw [if_pos hp]
      exact ⟨mapGet_mapSet _ _ _, Or.inl rfl⟩
    · rw [if_neg hp]
      exact ⟨mapGet_mapSet _ _ _, Or.inr rfl⟩
  · intro ctx st f canonical hname hpre hnotarr hnotnone
    match hc : f.content with
    | none => exact absurd hc hnotnone
    | some (Parsed.array rows) => exact absurd hc (hnotarr rows)
    | some Parsed.object => simp [processFile, hname, hc, hpre]
    | some Parsed.other => simp [processFile, hname, hc, hpre]
  · intro ctx st f fs h
    simp [processBatch, h]

/-- Witness for `upload_policy_spec`: a recognized 2022 dataset file
with a one-row array payload is registered under year 2022. -/
theorem upload_policy_spec_witness :
    mapGet (processFile ⟨true, true⟩
        { dataByYear := [], dataSources := [], nhe := false, nheSource := none }
        ⟨"medicare_drugs_2022.json", some (Parsed.array [⟨7, none⟩])⟩).1.dataByYear 2022 =
      some [⟨7, none⟩] :=
  (upload_policy_spec.2.2.2.2.1 ⟨true, true⟩
    { dataByYear := [], dataSources := [], nhe := false, nheSource := none }
    ⟨"medicare_drugs_2022.json", some (Parsed.array [⟨7, none⟩])⟩
    "medicare_drugs_2022.json" [⟨7, none⟩] 2022
    (by decide) rfl (by decide) (by decide)).1

/-! ## Clear-data control flow (app.js 433–450 and 622–646)

The re-discovery (`refreshData`)/`loadNhe` network refresh that
`forgetStoredData` triggers afterwards is a fetch, not a destructive
operation, and is not modelled. -/

/-- `getStoredMedicareYears()` (app.js 672–678): years whose provenance
is durable storage.  The source also sorts descending and stringifies
for display; only emptiness and membership feed the control flow. -/
def getStoredMedicareYears (st : AppState) : List ℕ :=
  (st.dataSources.filter (fun p => p.2 = Source.storage)).map Prod.fst

/-- `[...state.dataSources.values()].some(v => v === 'session')`. -/
def hasSessionUpload (st : AppState) : Bool :=
  st.dataSources.any (fun p => p.2 = Source.session)

/-- Observable result of the clear-data flow: the state left behind,
whether `storage.clear()` was issued, whether the confirm prompt was
shown, and the feedback message passed to `updateDataStatus`. -/
structure ClearOutcome where
  state : AppState
  storageCleared : Bool
  confirmShown : Bool
  message : String
  deriving Repr, DecidableEq

/-- `forgetStoredData()` (app.js 622–646): clears storage when
supported, drops every year whose provenance is storage or session from
both maps, resets a stored/session context, and reports whether
anything was there to clear. -/
def forgetStoredData (storageSupported : Bool) (st : AppState) : ClearOutcome :=
  let hadStored := ¬ getStoredMedicareYears st = [] ∨ st.nheSource = some Source.storage
  let hadSession := hasSessionUpload st = true ∨ st.nheSource = some Source.session
  let deleted := (st.dataSources.filter
    (fun p => decide (p.2 = Source.storage ∨ p.2 = Source.session))).map Prod.fst
  { state :=
      { dataByYear := st.dataByYear.filter (fun p => !(decide (p.1 ∈ deleted)))
        dataSources := st.dataSources.filter
          (fun p => !(decide (p.2 = Source.storage ∨ p.2 = Source.session)))
        nhe := if st.nheSource = some Source.storage ∨ st.nheSource = some Source.session
          then false else st.nhe
        nheSource := if st.nheSource = some Source.storage ∨ st.nheSource = some Source.session
          then none else st.nheSource }
    storageCleared := storageSupported
    confirmShown := false
    message := if hadStored ∨ hadSession then "Saved data cleared." else "No saved data to clear." }

/-- The clear-button click handler (app.js 433–450): with nothing
stored, nothing session-only and no context loaded it only reports;
otherwise it may prompt for confirmation and then forgets stored data.
`confirmAnswer` is the user's reply to `window.confirm`. -/
def clearClick (storageSupported confirmAnswer : Bool) (st : AppState) : ClearOutcome :=
  let hasStored := ¬ getStoredMedicareYears st = [] ∨ st.nheSource = some Source.storage
  let hasSession := hasSessionUpload st = true ∨ st.nheSource = some Source.session
  if ¬ hasStored ∧ ¬ hasSession ∧ st.nhe = false then
    { state := st, storageCleared := false, confirmShown := false,
      message := "No saved data to clear." }
  else if (hasStored ∨ hasSession) ∧ confirmAnswer = false then
    { state := st, storageCleared := false, confirmShown := true, message := "" }
  else
    { forgetStoredData storageSupported st with
        confirmShown := decide (hasStored ∨ hasSession) }

/-- C7 fails as stated: with nothing stored and nothing session-only
but a remotely fetched context present (`state.nhe` truthy with
provenance `fetch`), the click handler falls through to
`forgetStoredData`, which issues `storage.clear()` — even though the
resulting status message is still "No saved data to clear." -/
theorem clear_fetched_context_counterexample :
    (clearClick true true
        { dataByYear := [], dataSources := [], nhe := true,
          nheSource := some Source.fetch }).message = "No saved data to clear." ∧
      (clearClick true true
        { dataByYear := [], dataSources := [], nhe := true,
          nheSource := some Source.fetch }).storageCleared = true := by
  constructor
  · rfl
  · rfl

/-- C7 (amended): when no dataset or context entry is stored or
session-only **and no context object is loaded at all**, the clear-data
click yields the "nothing to clear" message, shows no confirm prompt,
issues no `storage.clear()` and deletes nothing from the registry. -/
theorem clear_nothing_spec (storageSupported confirmAnswer : Bool) (st : AppState)
    (h1 : getStoredMedicareYears st = [])
    (h2 : hasSessionUpload st = false)
    (h3 : ¬ st.nheSource = some Source.storage)
    (h4 : ¬ st.nheSource = some Source.session)
    (h5 : st.nhe = false) :
    clearClick storageSupported confirmAnswer st =
      { state := st, storageCleared := false, confirmShown := false,
        message := "No saved data to clear." } := by
  unfold clearClick
  rw [if_pos]
  exact ⟨by simp [h1, h3], by simp [h2, h4], h5⟩

/-- Witness for `clear_nothing_spec` on the pristine empty state. -/
theorem clear_nothing_spec_witness :
    clearClick true true
        { dataByYear := [], dataSources := [], nhe := false, nheSource := none } =
      { state := { dataByYear := [], dataSources := [], nhe := false, nheSource := none },
        storageCleared := false, confirmShown := false,
        message := "No saved data to clear." } :=
  clear_nothing_spec true true _ (by decide) (by decide) (by decide) (by decide) rfl

/-! ## Bubble radius encoding (`radiusScale`, app.js 944–952)

The square root is the one genuinely irrational operation of the
source, so this definition lives on `ℝ` (and is therefore not
executable — there is nothing to execute exactly). -/

/-- Embedding of `radiusScale(spend)` inside `renderScatter`:
`minRadius = 6`, `maxRadius = 26`, square-root interpolation by
`spend / maxSpend`. -/
noncomputable def radiusScale (maxSpend spend : ℝ) : ℝ :=
  if maxSpend ≤ 0 then 6
  else 6 + Real.sqrt (spend / maxSpend) * (26 - 6)

/-- C9 fails in its last clause: the bubble area `π·r²` is **not**
linear (affine) in spend, because the minimum radius 6 is added before
squaring.  With `maxSpend = 4` the radii at spends 1, 9/4, 4 are 16,
21, 26, and no affine function fits the three squared values. -/
theorem radius_area_not_linear :
    radiusScale 4 1 = 16 ∧ radiusScale 4 (9/4) = 21 ∧ radiusScale 4 4 = 26 ∧
      ¬ ∃ a b : ℝ, ∀ spend : ℝ, 0 < spend → spend ≤ 4 →
          Real.pi * radiusScale 4 spend ^ 2 = a + b * spend := by
  have e1 : Real.sqrt ((1 : ℝ) / 4) = 1/2 := by
    rw [show ((1 : ℝ) / 4) = (1/2) ^ 2 by norm_num, Real.sqrt_sq (by norm_num)]
  have e2 : Real.sqrt ((9 : ℝ) / 4 / 4) = 3/4 := by
    rw [show ((9 : ℝ) / 4 / 4) = (3/4) ^ 2 by norm_num, Real.sqrt_sq (by norm_num)]
  have e3 : Real.sqrt ((4 : ℝ) / 4) = 1 := by
    rw [show ((4 : ℝ) / 4) = (1 : ℝ) by norm_num, Real.sqrt_one]
  have r1 : radiusScale 4 1 = 16 := by
    unfold radiusScale
    rw [if_neg (by norm_num), e1]
    norm_num
  have r2 : radiusScale 4 (9/4) = 21 := by
    unfold radiusScale
    rw [if_neg (by norm_num), e2]
    norm_num
  have r3 : radiusScale 4 4 = 26 := by
    unfold radiusScale
    rw [if_neg (by norm_num), e3]
    norm_num
  refine ⟨r1, r2, r3, ?_⟩
  rintro ⟨a, b, h⟩
  have h1 := h 1 (by norm_num) (by norm_num)
  have h2 := h (9/4) (by norm_num) (by norm_num)
  have h3 := h 4 (by norm_num) (by norm_num)
  rw [r1] at h1
  rw [r2] at h2
  rw [r3] at h3
  norm_num at h1 h2 h3
  have hpi := Real.pi_pos
  linarith

/-- C9 (amended): for every plotted point the radius is
`6 + √(spend / maxSpend) · (26 − 6)`, so it lies in `[6, 26]`; and the
square of the radius *increment above the minimum* — not the area — is
linear in spend: `(r − 6)² · maxSpend = (26 − 6)² · spend`. -/
theorem radiusScale_spec (maxSpend spend : ℝ) (hmax : 0 < maxSpend)
    (h0 : 0 ≤ spend) (hle : spend ≤ maxSpend) :
    radiusScale maxSpend spend = 6 + Real.sqrt (spend / maxSpend) * (26 - 6) ∧
      6 ≤ radiusScale maxSpend spend ∧ radiusScale maxSpend spend ≤ 26 ∧
      (radiusScale maxSpend spend - 6) ^ 2 * maxSpend = (26 - 6) ^ 2 * spend := by
  have hx : (0 : ℝ) ≤ spend / maxSpend := div_nonneg h0 hmax.le
  have hs0 : 0 ≤ Real.sqrt (spend / maxSpend) := Real.sqrt_nonneg _
  have hs1 : Real.sqrt (spend / maxSpend) ≤ 1 :=
    Real.sqrt_le_one.mpr ((div_le_one hmax).mpr hle)
  have hform : radiusScale maxSpend spend = 6 + Real.sqrt (spend / maxSpend) * (26 - 6) := by
    unfold radiusScale
    rw [if_neg (not_le.mpr hmax)]
  refine ⟨hform, ?_, ?_, ?_⟩
  · rw [hform]
    nlinarith
  · rw [hform]
    nlinarith
  · rw [hform]
    have hsq : Real.sqrt (spend / maxSpend) ^ 2 = spend / maxSpend := Real.sq_sqrt hx
    have key : (6 + Real.sqrt (spend / maxSpend) * (26 - 6) - 6) ^ 2 =
        (26 - 6) ^ 2 * (spend / maxSpend) := by
      have expand : (6 + Real.sqrt (spend / maxSpend) * (26 - 6) - 6) ^ 2 =
          Real.sqrt (spend / maxSpend) ^ 2 * (26 - 6) ^ 2 := by ring
      rw [expand, hsq]
      ring
    rw [key, mul_assoc, div_mul_cancel₀ spend hmax.ne']

/-- Witness for `radiusScale_spec` at `maxSpend = 4`, `spend = 1`. -/
theorem radiusScale_spec_witness :
    radiusScale 4 1 = 6 + Real.sqrt ((1 : ℝ) / 4) * (26 - 6) ∧
      6 ≤ radiusScale 4 1 ∧ radiusScale 4 1 ≤ 26 ∧
      (radiusScale 4 1 - 6) ^ 2 * 4 = (26 - 6) ^ 2 * 1 :=
  radiusScale_spec 4 1 (by norm_num) (by norm_num) (by norm_num)

end Rx
